import Mathlib

/-!
Verification of the sara_back media backend (Express + Google Drive).

The development shallowly embeds the request handlers of `src/index.js`
(and, where relevant, the earlier revision in `src/unnamed/part_000`):
the remote Drive store is a list of entries, each `drive.files.list`
call becomes a filter/sort/truncate over that list, and each handler
becomes a pure function of the store and the request parameters.
JavaScript-specific behaviour (falsiness of `null` and `""`, `parseInt`
returning `NaN`, single-pass global regex replacement, `String.trim`)
is embedded explicitly.
-/

namespace SaraBack

/-- A child entry returned by the remote Drive store: id, name, mime type,
creation time, parent folder id, and trashed flag. -/
structure Entry where
  id : String
  name : String
  mimeType : String
  createdTime : Nat
  parent : String
  trashed : Bool
deriving DecidableEq, Repr

/-- The Google Drive folder mime type, as used in the handlers' queries. -/
def folderMime : String := "application/vnd.google-apps.folder"

/-- `mimeType contains 'image/'` from the Drive queries (substring match). -/
def isImageMime (m : String) : Bool := decide ("image/".data <:+: m.data)

/-- Query of the album-listing handler, step 1: children of `rootId` that are
folders and not trashed (`'rootId' in parents and mimeType = folder and
trashed = false`). -/
def childFolders (store : List Entry) (parentId : String) : List Entry :=
  store.filter fun e => e.parent == parentId && e.mimeType == folderMime && !e.trashed

/-- ASCII lowercasing of one character, for Drive's case-insensitive
name matching. -/
def lowerChar (c : Char) : Char :=
  if 65 ≤ c.toNat ∧ c.toNat ≤ 90 then Char.ofNat (c.toNat + 32) else c

/-- Case-insensitive string equality, as Drive applies to `name =` query
terms. -/
def nameEqCI (a b : String) : Bool :=
  a.data.map lowerChar == b.data.map lowerChar

/-- Query of step A of the cover resolution: child folders of `parentId`
named `cover`.  Drive name matching is case-insensitive. -/
def coverSubfolders (store : List Entry) (parentId : String) : List Entry :=
  store.filter fun e =>
    e.parent == parentId && nameEqCI e.name "cover" && e.mimeType == folderMime && !e.trashed

/-- Children of `parentId` with an image mime type that are not trashed,
as in the `mimeType contains 'image/' and trashed = false` queries. -/
def childImages (store : List Entry) (parentId : String) : List Entry :=
  store.filter fun e => e.parent == parentId && isImageMime e.mimeType && !e.trashed

/-- One step of the running minimum used to model `orderBy: "createdTime",
pageSize: 1`: keep the earlier-created entry, preferring the current one
on ties (as a stable sort does). -/
def earlierOf (b x : Entry) : Entry :=
  if x.createdTime < b.createdTime then x else b

/-- The first file of a Drive listing ordered by `createdTime` ascending:
the first entry attaining the minimal creation time, or `none` if empty. -/
def firstByCreated (l : List Entry) : Option Entry :=
  match l with
  | [] => none
  | e :: es => some (es.foldl earlierOf e)

/-- JavaScript falsiness of the `coverImageId` string variable:
`null` and the empty string are falsy. -/
def jsFalsyId (o : Option String) : Bool :=
  match o with
  | none => true
  | some s => s == ""

/-- The per-folder cover computation of the `GET /api/drive/folders/:rootId`
handler: step A finds a `cover` subfolder (`pageSize: 1`, first hit), step B
takes the earliest-created image inside it, and step C falls back to the
earliest-created image directly in the folder when step B produced nothing
(`if (!coverImageId)` / `files[0]?.id || null`). -/
def resolveCover (store : List Entry) (folderId : String) : Option String :=
  let coverFolder := (coverSubfolders store folderId).head?
  let fromCover : Option String :=
    match coverFolder with
    | some cf =>
      match firstByCreated (childImages store cf.id) with
      | some e => some e.id
      | none => none
    | none => none
  let fallback : Option String :=
    match firstByCreated (childImages store folderId) with
    | some e => if e.id == "" then none else some e.id
    | none => none
  if jsFalsyId fromCover then fallback else fromCover

/-- The album object assembled per folder by the album-listing handler. -/
structure Album where
  id : String
  name : String
  coverImageId : Option String
deriving DecidableEq, Repr

/-- The album built for one child folder: `{id, name, coverImageId}`. -/
def folderAlbum (store : List Entry) (folder : Entry) : Album :=
  { id := folder.id, name := folder.name, coverImageId := resolveCover store folder.id }

/-- The album-listing result on a cache miss: every child folder of the
root is mapped to its album, covers resolved per folder. -/
def listAlbums (store : List Entry) (rootId : String) : List Album :=
  (childFolders store rootId).map (folderAlbum store)

/-- A JavaScript whitespace character (the `WhiteSpace` and `LineTerminator`
productions), as recognised by `String.prototype.trim`. -/
def isJsSpace (c : Char) : Bool :=
  c.toNat == 0x9 || c.toNat == 0xA || c.toNat == 0xB || c.toNat == 0xC ||
  c.toNat == 0xD || c.toNat == 0x20 || c.toNat == 0xA0 || c.toNat == 0x1680 ||
  (0x2000 ≤ c.toNat && c.toNat ≤ 0x200A) || c.toNat == 0x2028 ||
  c.toNat == 0x2029 || c.toNat == 0x202F || c.toNat == 0x205F ||
  c.toNat == 0x3000 || c.toNat == 0xFEFF

/-- Value of a character as a digit in bases up to 16, used by `parseInt`. -/
def jsDigitVal (c : Char) : Option Nat :=
  if '0' ≤ c ∧ c ≤ '9' then some (c.toNat - '0'.toNat)
  else if 'a' ≤ c ∧ c ≤ 'f' then some (c.toNat - 'a'.toNat + 10)
  else if 'A' ≤ c ∧ c ≤ 'F' then some (c.toNat - 'A'.toNat + 10)
  else none

/-- Longest leading run of digits valid in the given radix. -/
def takeDigits (radix : Nat) : List Char → List Nat
  | [] => []
  | c :: cs =>
    match jsDigitVal c with
    | some v => if v < radix then v :: takeDigits radix cs else []
    | none => []

/-- JavaScript `parseInt(s)` with no radix argument: skip leading
whitespace, read an optional sign, honour a `0x`/`0X` hex prefix, parse
the longest leading digit run; `none` models the `NaN` result when no
digit is found. -/
def jsParseInt (s : String) : Option Int :=
  let cs := s.data.dropWhile isJsSpace
  let signAndRest : Int × List Char :=
    match cs with
    | '-' :: rest => (-1, rest)
    | '+' :: rest => (1, rest)
    | _ => (1, cs)
  let radixAndRest : Nat × List Char :=
    match signAndRest.2 with
    | '0' :: 'x' :: rest => (16, rest)
    | '0' :: 'X' :: rest => (16, rest)
    | other => (10, other)
  match takeDigits radixAndRest.1 radixAndRest.2 with
  | [] => none
  | ds => some (signAndRest.1 * (ds.foldl (fun a d => a * radixAndRest.1 + d) 0 : Nat))

/-- The width handed to the resize stage of `GET /thumbnail/:fileId`:
`req.query.size ? parseInt(req.query.size) : 600`.  An absent or empty
(falsy) `size` yields the 600 default; otherwise the `parseInt` result is
used, `none` standing for `NaN`. -/
def thumbWidth (size : Option String) : Option Int :=
  match size with
  | none => some 600
  | some s => if s == "" then some 600 else jsParseInt s

/-- The static response configuration of the thumbnail handler: resize
width, output content type, cache directive, and webp quality. -/
structure ThumbnailPlan where
  width : Option Int
  contentType : String
  cacheControl : String
  quality : Nat
deriving DecidableEq, Repr

/-- The thumbnail handler's transform and header configuration:
`sharp().resize({width: size}).webp({quality: 80})` with
`Content-Type: image/webp` and a one-year immutable cache directive. -/
def thumbnailPlan (size : Option String) : ThumbnailPlan :=
  { width := thumbWidth size
    contentType := "image/webp"
    cacheControl := "public, max-age=31536000, immutable"
    quality := 80 }

/-- The three streams of the thumbnail pipe chain: the Drive source
stream, the sharp transform, and the HTTP response. -/
inductive StreamNode
  | source
  | sharpT
  | response
deriving DecidableEq, Repr

/-- Node's `a.pipe(b)` returns its destination `b`; chained calls
therefore continue from the destination. -/
def pipeStream (_src dst : StreamNode) : StreamNode := dst

/-- The set of streams carrying an `error` listener that would send the
500 response. -/
structure ErrorWiring where
  errTargets : List StreamNode
deriving DecidableEq, Repr

/-- `st.on("error", handler)` registers the handler on `st`. -/
def onError (w : ErrorWiring) (target : StreamNode) : ErrorWiring :=
  ⟨target :: w.errTargets⟩

/-- The thumbnail handler's wiring
`response.data.pipe(sharp…).pipe(res).on("error", …)`: each `pipe`
returns its destination, so the error listener lands on the stream the
second `pipe` returned. -/
def thumbnailErrorWiring : ErrorWiring :=
  let p1 := pipeStream StreamNode.source StreamNode.sharpT
  let p2 := pipeStream p1 StreamNode.response
  onError ⟨[]⟩ p2

/-- A Node stream error is handled (and the 500 path taken) only when a
listener is registered on the erroring stream itself. -/
def handlesErrorAt (w : ErrorWiring) (at_ : StreamNode) : Bool :=
  w.errTargets.contains at_

/-- Normalisation applied by the image-listing handler to the upstream
page token: `response.data.nextPageToken || null` (absent or empty
becomes `null`, anything else passes through). -/
def jsTokenOrNull (t : Option String) : Option String :=
  match t with
  | none => none
  | some s => if s == "" then none else some s

/-- The page returned by the paged image-listing handlers. -/
structure ImagesPage where
  files : List Entry
  nextPageToken : Option String
deriving DecidableEq, Repr

/-- The `GET /api/drive/images/:folderId` response:
`{files: response.data.files || [], nextPageToken: response.data.nextPageToken || null}`. -/
def imagesHandlerPage (upstreamFiles : Option (List Entry))
    (upstreamToken : Option String) : ImagesPage :=
  { files := upstreamFiles.getD [], nextPageToken := jsTokenOrNull upstreamToken }

/-- The `POST /folder-images/:folderId` response: `res.json(response.data)`
forwards the upstream page object unchanged. -/
def folderImagesHandlerPage (upstream : ImagesPage) : ImagesPage := upstream

/-- Query of the password-id handler: children of the folder named
`password.txt` (Drive name matching, case-insensitive) that are not
trashed. -/
def passwordFileQuery (store : List Entry) (folderId : String) : List Entry :=
  store.filter fun e =>
    e.parent == folderId && nameEqCI e.name "password.txt" && !e.trashed

/-- Response of `GET /api/drive/password/:folderId`: either a JSON body
with a (possibly null) password file id, or the 500 error branch. -/
inductive PasswordIdResponse
  | ok (passwordFileId : Option String)
  | serverError
deriving DecidableEq, Repr

/-- The password-id handler: `files[0]` of the query; when absent it
responds `{passwordFileId: null}`, otherwise `{passwordFileId: file.id}`. -/
def passwordIdHandler (store : List Entry) (folderId : String) : PasswordIdResponse :=
  match (passwordFileQuery store folderId).head? with
  | none => .ok none
  | some f => .ok (some f.id)

/-- A zero-width / BOM character, the class U+200B..U+200D or U+FEFF
stripped by the sanitizing password-content handler's first `replace`. -/
def isZeroWidth (c : Char) : Bool :=
  (0x200B ≤ c.toNat && c.toNat ≤ 0x200D) || c.toNat == 0xFEFF

/-- Single left-to-right pass of `replace(/\r\n/g, "\n")`: each
non-overlapping CRLF pair of the original text becomes LF; scanning
resumes after the pair. -/
def replaceCrlf : List Char → List Char
  | [] => []
  | [c] => [c]
  | a :: b :: rest =>
    if a == '\r' && b == '\n' then '\n' :: replaceCrlf rest
    else a :: replaceCrlf (b :: rest)

/-- JavaScript `String.prototype.trim`: strip leading and trailing
whitespace characters. -/
def jsTrim (cs : List Char) : List Char :=
  List.rdropWhile isJsSpace (cs.dropWhile isJsSpace)

/-- The sanitizing `GET /api/drive/password/content/:fileId` handler's
text transformation: strip zero-width/BOM characters, replace CRLF with
LF in one global pass, then trim. -/
def sanitizePassword (s : String) : String :=
  ⟨jsTrim (replaceCrlf (s.data.filter fun c => !isZeroWidth c))⟩

/-- The earlier trim-only revision of the password-content handler:
`res.send(password.trim())`. -/
def trimOnlyPassword (s : String) : String :=
  ⟨jsTrim s.data⟩

/-- Whether a character list contains a CRLF pair. -/
def hasCrlf : List Char → Bool
  | [] => false
  | [_] => false
  | a :: b :: rest => (a == '\r' && b == '\n') || hasCrlf (b :: rest)

/-- Whether a character list contains two consecutive CRs. -/
def hasCrCr : List Char → Bool
  | [] => false
  | [_] => false
  | a :: b :: rest => (a == '\r' && b == '\r') || hasCrCr (b :: rest)

/-- A cached album listing with its absolute expiry instant
(`none` for the node-cache convention that a zero TTL never expires). -/
structure CacheEntry where
  key : String
  value : List Album
  expiresAt : Option Nat
deriving DecidableEq, Repr

/-- Modelled from the spec: the Album Cache `set` operation (the
node-cache library used by `src/index.js` is not part of this
repository's sources).  `set(key, v, ttl)` stores `v` under `key` with
absolute expiry `now + ttl` (no expiry when `ttl = 0`), replacing any
previous entry for the key. -/
def cacheSet (c : List CacheEntry) (k : String) (v : List Album)
    (ttl now : Nat) : List CacheEntry :=
  ⟨k, v, if ttl = 0 then none else some (now + ttl)⟩ ::
    c.filter fun e => e.key ≠ k

/-- Modelled from the spec: the Album Cache `get` operation (node-cache
is not part of this repository's sources).  An entry is visible only
while `now < expiresAt` (lazy expiry); afterwards it is treated as
absent. -/
def cacheGet (c : List CacheEntry) (k : String) (now : Nat) : Option (List Album) :=
  match c.find? (fun e => e.key == k) with
  | none => none
  | some e =>
    match e.expiresAt with
    | none => some e.value
    | some t => if now < t then some e.value else none

/-- The album-listing handler around the cache: key `folders-<rootId>`,
serve from cache on a hit, otherwise recompute the full listing via the
store and cache it with the 300-second deployment TTL. -/
def foldersHandler (store : List Entry) (c : List CacheEntry)
    (rootId : String) (now : Nat) : List Album × List CacheEntry :=
  let cacheKey := "folders-" ++ rootId
  match cacheGet c cacheKey now with
  | some v => (v, c)
  | none =>
    let result := listAlbums store rootId
    (result, cacheSet c cacheKey result 300 now)

/-- A concrete store used to evaluate the theorems: root `R` holding
album folders `A`, `B` and `D`; `A` has a `Cover` subfolder `C` whose
image `x1` was created after `A`'s direct image `x2`; `B` has only the
direct image `y1`; `D` is empty. -/
def sampleStore : List Entry :=
  [⟨"A", "Album A", folderMime, 0, "R", false⟩,
   ⟨"B", "Album B", folderMime, 0, "R", false⟩,
   ⟨"D", "Album D", folderMime, 0, "R", false⟩,
   ⟨"C", "Cover", folderMime, 0, "A", false⟩,
   ⟨"x1", "x1.jpg", "image/jpeg", 5, "C", false⟩,
   ⟨"x2", "x2.jpg", "image/jpeg", 1, "A", false⟩,
   ⟨"y1", "y1.png", "image/png", 3, "B", false⟩]

/-- C5: the spec requires a transform failure to surface a 500 when no
response bytes were written, but the handler's error listener is attached
to the stream returned by the second `pipe`, which is the HTTP response
stream, not the sharp transform; a sharp decode error therefore has no
listener and the 500 branch cannot run. -/
theorem C5_transform_error_unhandled :
    thumbnailErrorWiring.errTargets = [StreamNode.response] ∧
    handlesErrorAt thumbnailErrorWiring StreamNode.sharpT = false :=
  ⟨rfl, rfl⟩

/-- C8: with no `size` query parameter the thumbnail pipeline resizes to
the fixed 600-pixel default, and for every request the output is webp at
quality 80 with an `image/webp` content type and a one-year immutable
cache directive. -/
theorem C8_thumbnail_fixed_format :
    (thumbnailPlan none).width = some 600 ∧
    ∀ size, (thumbnailPlan size).contentType = "image/webp" ∧
      (thumbnailPlan size).quality = 80 ∧
      (thumbnailPlan size).cacheControl = "public, max-age=31536000, immutable" :=
  ⟨rfl, fun _ => ⟨rfl, rfl, rfl⟩⟩

/-- C10: the 600 default applies exactly when the `size` parameter is
absent or empty; a present but unparseable `size` makes the width the
`NaN` result of `parseInt`, not 600. -/
theorem C10_unparseable_size_gives_nan (s : String) (h1 : s ≠ "")
    (h2 : jsParseInt s = none) :
    thumbWidth (some s) = none ∧ thumbWidth none = some 600 ∧
    thumbWidth (some "") = some 600 := by
  have hb : (s == "") = false := beq_eq_false_iff_ne.mpr h1
  exact ⟨by simp [thumbWidth, hb, h2], rfl, by simp [thumbWidth]⟩

theorem C10_witness :
    thumbWidth (some "abc") = none ∧ thumbWidth none = some 600 ∧
    thumbWidth (some "") = some 600 :=
  C10_unparseable_size_gives_nan "abc" (by decide) (by decide)

/-- C9: when the folder holds no `password.txt` entry, the password-id
handler answers the distinct success `{passwordFileId: null}` rather
than the server-error branch. -/
theorem C9_password_missing_is_null (store : List Entry) (folderId : String)
    (h : passwordFileQuery store folderId = []) :
    passwordIdHandler store folderId = PasswordIdResponse.ok none := by
  unfold passwordIdHandler
  rw [h]
  rfl

theorem C9_witness :
    passwordIdHandler sampleStore "A" = PasswordIdResponse.ok none :=
  C9_password_missing_is_null sampleStore "A" (by decide)

/-- C7: the listing handlers' `nextPageToken` is null exactly when the
upstream response carries no token, and a non-null upstream token is
forwarded unchanged regardless of how many files the page holds; the
`POST /folder-images` handler forwards the upstream page verbatim. -/
theorem C7_next_page_token_forwarded (upstreamFiles : Option (List Entry))
    (tok : Option String) (htok : ∀ s, tok = some s → s ≠ "") :
    ((imagesHandlerPage upstreamFiles tok).nextPageToken = none ↔ tok = none) ∧
    (∀ s, tok = some s → (imagesHandlerPage upstreamFiles tok).nextPageToken = some s) ∧
    ∀ p : ImagesPage, (folderImagesHandlerPage p).nextPageToken = p.nextPageToken := by
  cases tok with
  | none => simp [imagesHandlerPage, jsTokenOrNull, folderImagesHandlerPage]
  | some s =>
    have hb : (s == "") = false := beq_eq_false_iff_ne.mpr (htok s rfl)
    simp [imagesHandlerPage, jsTokenOrNull, hb, folderImagesHandlerPage]

theorem C7_witness :
    (imagesHandlerPage none (some "tok123")).nextPageToken = some "tok123" ∧
    (imagesHandlerPage none (none : Option String)).nextPageToken = none :=
  ⟨(C7_next_page_token_forwarded none (some "tok123")
      (by intro s h; cases h; decide)).2.1 "tok123" rfl,
   (C7_next_page_token_forwarded none none
      (by intro s h; cases h)).1.mpr rfl⟩

/-- C6: a `set` is immediately visible to `get` under the same key; once
the TTL has elapsed (`now + ttl ≤ t`) the entry reads as absent; and on
an absent entry the album-listing handler performs the full
recomputation from the store. -/
theorem C6_cache_roundtrip (c : List CacheEntry) (k : String) (v : List Album)
    (ttl now : Nat) :
    cacheGet (cacheSet c k v ttl now) k now = some v ∧
    (0 < ttl → ∀ t, now + ttl ≤ t → cacheGet (cacheSet c k v ttl now) k t = none) ∧
    ∀ (store : List Entry) (rootId : String),
      cacheGet c ("folders-" ++ rootId) now = none →
      (foldersHandler store c rootId now).1 = listAlbums store rootId := by
  refine ⟨?_, ?_, ?_⟩
  · simp only [cacheGet, cacheSet, List.find?]
    rw [show (k == k) = true from beq_self_eq_true k]
    by_cases httl : ttl = 0
    · simp [httl]
    · have : now < now + ttl := by omega
      simp [httl, this]
  · intro hpos t ht
    simp only [cacheGet, cacheSet, List.find?]
    rw [show (k == k) = true from beq_self_eq_true k]
    have h0 : ttl ≠ 0 := by omega
    have : ¬t < now + ttl := by omega
    simp [h0, this]
  · intro store rootId h
    simp [foldersHandler, h]

theorem C6_witness :
    cacheGet (cacheSet [] "folders-R" [] 300 0) "folders-R" 300 = none ∧
    (foldersHandler sampleStore [] "R" 0).1 = listAlbums sampleStore "R" :=
  ⟨(C6_cache_roundtrip [] "folders-R" [] 300 0).2.1 (by decide) 300 (by decide),
   (C6_cache_roundtrip [] "folders-R" [] 300 0).2.2 sampleStore "R" (by decide)⟩

theorem foldl_earlierOf_mem (es : List Entry) (b : Entry) :
    es.foldl earlierOf b = b ∨ es.foldl earlierOf b ∈ es := by
  induction es generalizing b with
  | nil => exact Or.inl rfl
  | cons x xs ih =>
    have hbx : earlierOf b x = b ∨ earlierOf b x = x := by
      unfold earlierOf; split
      · exact Or.inr rfl
      · exact Or.inl rfl
    rw [List.foldl_cons]
    rcases ih (earlierOf b x) with h | h
    · rcases hbx with h2 | h2
      · exact Or.inl (by rw [h, h2])
      · exact Or.inr (by rw [h, h2]; exact List.mem_cons_self x xs)
    · exact Or.inr (List.mem_cons_of_mem x h)

theorem foldl_earlierOf_le (es : List Entry) (b : Entry) :
    (es.foldl earlierOf b).createdTime ≤ b.createdTime ∧
    ∀ x ∈ es, (es.foldl earlierOf b).createdTime ≤ x.createdTime := by
  induction es generalizing b with
  | nil => exact ⟨le_refl _, by simp⟩
  | cons x xs ih =>
    obtain ⟨h1, h2⟩ := ih (earlierOf b x)
    have hb : (earlierOf b x).createdTime ≤ b.createdTime := by
      unfold earlierOf; split <;> omega
    have hx : (earlierOf b x).createdTime ≤ x.createdTime := by
      unfold earlierOf; split <;> omega
    rw [List.foldl_cons]
    refine ⟨le_trans h1 hb, ?_⟩
    intro y hy
    rcases List.mem_cons.mp hy with rfl | hy
    · exact le_trans h1 hx
    · exact h2 y hy

theorem firstByCreated_mem {l : List Entry} {e : Entry}
    (h : firstByCreated l = some e) : e ∈ l := by
  cases l with
  | nil => simp [firstByCreated] at h
  | cons a as =>
    simp only [firstByCreated, Option.some.injEq] at h
    rcases foldl_earlierOf_mem as a with hm | hm
    · rw [← h, hm]; exact List.mem_cons_self a as
    · rw [← h]; exact List.mem_cons_of_mem a hm

theorem firstByCreated_min {l : List Entry} {e : Entry}
    (h : firstByCreated l = some e) :
    ∀ x ∈ l, e.createdTime ≤ x.createdTime := by
  cases l with
  | nil => simp [firstByCreated] at h
  | cons a as =>
    simp only [firstByCreated, Option.some.injEq] at h
    obtain ⟨h1, h2⟩ := foldl_earlierOf_le as a
    intro x hx
    rcases List.mem_cons.mp hx with rfl | hx
    · rw [← h]; exact h1
    · rw [← h]; exact h2 x hx

theorem firstByCreated_isSome {l : List Entry} (h : l ≠ []) :
    ∃ e, firstByCreated l = some e := by
  cases l with
  | nil => exact absurd rfl h
  | cons a as => exact ⟨as.foldl earlierOf a, rfl⟩

theorem resolveCover_of_cover {store : List Entry} {folderId : String}
    {cf e : Entry} (hcf : coverSubfolders store folderId = [cf])
    (hfc : firstByCreated (childImages store cf.id) = some e)
    (hne : e.id ≠ "") :
    resolveCover store folderId = some e.id := by
  have hb : (e.id == "") = false := beq_eq_false_iff_ne.mpr hne
  simp [resolveCover, hcf, hfc, jsFalsyId, hb]

theorem resolveCover_fallback {store : List Entry} {folderId : String}
    (hcov : ∀ cf, (coverSubfolders store folderId).head? = some cf →
      childImages store cf.id = []) :
    resolveCover store folderId =
      match firstByCreated (childImages store folderId) with
      | some e => if e.id == "" then none else some e.id
      | none => none := by
  cases hh : (coverSubfolders store folderId).head? with
  | none => simp [resolveCover, hh, jsFalsyId]
  | some cf =>
    have hempty := hcov cf hh
    simp [resolveCover, hh, hempty, firstByCreated, jsFalsyId]

theorem childImages_subset_store {store : List Entry} {pid : String} {e : Entry}
    (h : e ∈ childImages store pid) : e ∈ store := by
  simp only [childImages, List.mem_filter] at h
  exact h.1

/-- C1: whenever a folder's `cover` subfolder exists (name matched
case-insensitively) and holds at least one image, `resolveCover` returns
the earliest-created image of that subfolder — step C never runs, so the
result is independent of any images lying directly in the folder. -/
theorem C1_cover_subfolder_wins (store : List Entry) (folderId : String)
    (cf : Entry) (hids : ∀ e ∈ store, e.id ≠ "")
    (hcf : coverSubfolders store folderId = [cf])
    (hne : childImages store cf.id ≠ []) :
    ∃ e ∈ childImages store cf.id,
      resolveCover store folderId = some e.id ∧
      ∀ x ∈ childImages store cf.id, e.createdTime ≤ x.createdTime := by
  obtain ⟨e, he⟩ := firstByCreated_isSome hne
  have hmem := firstByCreated_mem he
  have hid : e.id ≠ "" := hids e (childImages_subset_store hmem)
  exact ⟨e, hmem, resolveCover_of_cover hcf he hid, firstByCreated_min he⟩

theorem C1_witness : resolveCover sampleStore "A" = some "x1" := by
  obtain ⟨e, hmem, hres, -⟩ :=
    C1_cover_subfolder_wins sampleStore "A" ⟨"C", "Cover", folderMime, 0, "A", false⟩
      (by decide) (by decide) (by decide)
  have hci : childImages sampleStore "C" =
      [⟨"x1", "x1.jpg", "image/jpeg", 5, "C", false⟩] := by decide
  rw [hci] at hmem
  have hx := List.mem_singleton.mp hmem
  rw [hres, hx]

/-- C2: when the folder has no `cover` subfolder, or its first `cover`
subfolder holds no image, but the folder itself holds at least one
image, `resolveCover` falls back to the earliest-created image directly
inside the folder. -/
theorem C2_direct_image_fallback (store : List Entry) (folderId : String)
    (hids : ∀ e ∈ store, e.id ≠ "")
    (hcov : ∀ cf, (coverSubfolders store folderId).head? = some cf →
      childImages store cf.id = [])
    (hne : childImages store folderId ≠ []) :
    ∃ e ∈ childImages store folderId,
      resolveCover store folderId = some e.id ∧
      ∀ x ∈ childImages store folderId, e.createdTime ≤ x.createdTime := by
  obtain ⟨e, he⟩ := firstByCreated_isSome hne
  have hmem := firstByCreated_mem he
  have hid : e.id ≠ "" := hids e (childImages_subset_store hmem)
  have hb : (e.id == "") = false := beq_eq_false_iff_ne.mpr hid
  refine ⟨e, hmem, ?_, firstByCreated_min he⟩
  rw [resolveCover_fallback hcov, he]
  simp [hb]

theorem C2_witness : resolveCover sampleStore "B" = some "y1" := by
  obtain ⟨e, hmem, hres, -⟩ :=
    C2_direct_image_fallback sampleStore "B" (by decide)
      (by intro cf h; simp [coverSubfolders, sampleStore, nameEqCI] at h)
      (by decide)
  have hci : childImages sampleStore "B" =
      [⟨"y1", "y1.png", "image/png", 3, "B", false⟩] := by decide
  rw [hci] at hmem
  have hy := List.mem_singleton.mp hmem
  rw [hres, hy]

/-- C3: when neither the `cover` subfolder nor the folder itself holds
an image, `resolveCover` returns `none` and the album listing still
contains the folder's entry with a null `coverImageId` instead of
failing. -/
theorem C3_no_image_yields_null (store : List Entry) (rootId : String)
    (folder : Entry) (hmem : folder ∈ childFolders store rootId)
    (hcov : ∀ cf, (coverSubfolders store folder.id).head? = some cf →
      childImages store cf.id = [])
    (hself : childImages store folder.id = []) :
    resolveCover store folder.id = none ∧
    ({ id := folder.id, name := folder.name, coverImageId := none } : Album) ∈
      listAlbums store rootId := by
  have h1 : resolveCover store folder.id = none := by
    rw [resolveCover_fallback hcov, hself]
    rfl
  refine ⟨h1, ?_⟩
  refine List.mem_map.mpr ⟨folder, hmem, ?_⟩
  simp [folderAlbum, h1]

theorem C3_witness :
    resolveCover sampleStore "D" = none ∧
    ({ id := "D", name := "Album D", coverImageId := none } : Album) ∈
      listAlbums sampleStore "R" :=
  C3_no_image_yields_null sampleStore "R" ⟨"D", "Album D", folderMime, 0, "R", false⟩
    (by decide)
    (by intro cf h; simp [coverSubfolders, sampleStore, nameEqCI] at h)
    (by decide)

theorem mem_replaceCrlf {c : Char} : ∀ l, c ∈ replaceCrlf l → c = '\n' ∨ c ∈ l := by
  intro l
  induction l using replaceCrlf.induct with
  | case1 => intro h; simp [replaceCrlf] at h
  | case2 d => intro h; simp [replaceCrlf] at h; simp [h]
  | case3 a b rest hab ih =>
    intro h
    rw [replaceCrlf, if_pos hab] at h
    rcases List.mem_cons.mp h with rfl | h
    · exact Or.inl rfl
    · rcases ih h with h | h
      · exact Or.inl h
      · exact Or.inr (by simp [List.mem_cons]; tauto)
  | case4 a b rest hab ih =>
    intro h
    rw [replaceCrlf, if_neg hab] at h
    rcases List.mem_cons.mp h with rfl | h
    · exact Or.inr (List.mem_cons_self _ _)
    · rcases ih h with h | h
      · exact Or.inl h
      · exact Or.inr (List.mem_cons_of_mem _ h)

theorem hasCrlf_append_left (t : List Char) :
    ∀ m, hasCrlf m = true → hasCrlf (m ++ t) = true := by
  intro m
  induction m using hasCrlf.induct with
  | case1 => intro h; simp [hasCrlf] at h
  | case2 d => intro h; simp [hasCrlf] at h
  | case3 a b rest ih =>
    intro h
    rw [hasCrlf] at h
    rcases Bool.or_eq_true_iff.mp h with h | h
    · show hasCrlf (a :: b :: (rest ++ t)) = true
      rw [hasCrlf, h, Bool.true_or]
    · show hasCrlf (a :: b :: (rest ++ t)) = true
      rw [hasCrlf]
      have := ih h
      rw [List.cons_append] at this
      rw [this, Bool.or_true]

theorem hasCrlf_append_right (m t : List Char) (h : hasCrlf t = true) :
    hasCrlf (m ++ t) = true := by
  induction m with
  | nil => simpa using h
  | cons a m' ih =>
    have hne : m' ++ t ≠ [] := by
      intro hc
      rcases List.append_eq_nil.mp hc with ⟨-, rfl⟩
      simp [hasCrlf] at h
    cases hmt : m' ++ t with
    | nil => exact absurd hmt hne
    | cons c rest =>
      rw [List.cons_append, hmt, hasCrlf]
      rw [hmt] at ih
      rw [ih, Bool.or_true]

theorem hasCrlf_infix {l' l : List Char} (hinf : l' <:+: l)
    (h : hasCrlf l = false) : hasCrlf l' = false := by
  by_contra hc
  have htrue : hasCrlf l' = true := by
    revert hc; cases hasCrlf l' <;> simp
  obtain ⟨s, t, heq⟩ := hinf
  have := hasCrlf_append_right s (l' ++ t) (hasCrlf_append_left t l' htrue)
  rw [← List.append_assoc, heq, h] at this
  exact Bool.false_ne_true this

theorem hasCrCr_tail {x : Char} {xs : List Char}
    (h : hasCrCr (x :: xs) = false) : hasCrCr xs = false := by
  cases xs with
  | nil => rfl
  | cons y r =>
    rw [hasCrCr] at h
    exact (Bool.or_eq_false_iff.mp h).2

theorem replaceCrlf_cons_ne_cr (b : Char) (rest : List Char)
    (hb : (b == '\r') = false) :
    ∃ tail, replaceCrlf (b :: rest) = b :: tail := by
  cases rest with
  | nil => exact ⟨[], rfl⟩
  | cons c r =>
    refine ⟨replaceCrlf (c :: r), ?_⟩
    rw [replaceCrlf, if_neg]
    simp [hb]

theorem hasCrlf_cons_of_ne (c : Char) (l : List Char)
    (hc : (c == '\r') = false) (hl : hasCrlf l = false) :
    hasCrlf (c :: l) = false := by
  cases l with
  | nil => rfl
  | cons d r =>
    rw [hasCrlf, hl, hc]
    simp

theorem noCrlf_replaceCrlf : ∀ l, hasCrCr l = false → hasCrlf (replaceCrlf l) = false := by
  intro l
  induction l using replaceCrlf.induct with
  | case1 => intro _; rfl
  | case2 d => intro _; rfl
  | case3 a b rest hab ih =>
    intro h
    rw [replaceCrlf, if_pos hab]
    exact hasCrlf_cons_of_ne _ _ (by decide) (ih (hasCrCr_tail (hasCrCr_tail h)))
  | case4 a b rest hab ih =>
    intro h
    rw [replaceCrlf, if_neg hab]
    have hrec := ih (hasCrCr_tail h)
    cases ha : (a == '\r') with
    | false => exact hasCrlf_cons_of_ne _ _ ha hrec
    | true =>
      have hbn : (b == '\n') = false := by
        cases hbn : (b == '\n') with
        | false => rfl
        | true => exact absurd (by rw [ha, hbn]; rfl) hab
      have hbr : (b == '\r') = false := by
        rw [hasCrCr, ha] at h
        have h1 := (Bool.or_eq_false_iff.mp h).1
        simpa using h1
      obtain ⟨tail, htail⟩ := replaceCrlf_cons_ne_cr b rest hbr
      rw [htail, hasCrlf]
      have hbt : hasCrlf (b :: tail) = false := by rw [← htail]; exact hrec
      rw [hbt, hbn, Bool.and_false, Bool.false_or]

theorem dropWhile_head_false {p : Char → Bool} :
    ∀ {l : List Char} {c : Char} {t : List Char},
      List.dropWhile p l = c :: t → p c = false := by
  intro l
  induction l with
  | nil => intro c t h; simp [List.dropWhile] at h
  | cons a as ih =>
    intro c t h
    rw [List.dropWhile_cons] at h
    cases hp : p a with
    | false =>
      rw [hp, if_neg (by simp)] at h
      cases h
      exact hp
    | true =>
      rw [hp, if_pos rfl] at h
      exact ih h

theorem jsTrim_infixOf (cs : List Char) : jsTrim cs <:+: cs := by
  unfold jsTrim
  exact ((List.rdropWhile_prefix _ _).isInfix).trans ((List.dropWhile_suffix _).isInfix)

theorem jsTrim_head (cs : List Char) :
    ((jsTrim cs).head?.all fun c => !isJsSpace c) = true := by
  cases hout : jsTrim cs with
  | nil => simp
  | cons c t =>
    have hpre : jsTrim cs <+: cs.dropWhile isJsSpace := by
      unfold jsTrim
      exact List.rdropWhile_prefix _ _
    rw [hout] at hpre
    obtain ⟨u, hu⟩ := hpre
    have hlist : cs.dropWhile isJsSpace = c :: (t ++ u) := by
      rw [← hu, List.cons_append]
    simp [dropWhile_head_false hlist]

theorem jsTrim_last (cs : List Char) :
    ((jsTrim cs).getLast?.all fun c => !isJsSpace c) = true := by
  unfold jsTrim List.rdropWhile
  rw [List.getLast?_reverse]
  cases hh : (cs.dropWhile isJsSpace).reverse.dropWhile isJsSpace with
  | nil => simp [hh]
  | cons c t => simp [hh, dropWhile_head_false hh]

/-- C4: the claim as stated fails: CRLF replacement is a single
left-to-right pass over the original text, so a CR immediately
preceding a replaced CRLF re-forms a CRLF in the output — the sanitized
result of `"a\r\r\nb"` still contains a CRLF pair, so its line endings
are not normalized. -/
theorem C4_counterexample :
    sanitizePassword "a\r\r\nb" = "a\r\nb" ∧
    hasCrlf (sanitizePassword "a\r\r\nb").data = true := by
  constructor
  · rfl
  · rfl

/-- C4 (amended): the sanitizing password-content handler returns the
text with all zero-width/BOM characters stripped and leading/trailing
whitespace trimmed; CRLF pairs are replaced by LF in one left-to-right
pass, so the output is CRLF-free whenever the stripped text has no two
consecutive CRs. -/
theorem C4_sanitized_text (s : String) :
    ((sanitizePassword s).data.all fun c => !isZeroWidth c) = true ∧
    ((sanitizePassword s).data.head?.all fun c => !isJsSpace c) = true ∧
    ((sanitizePassword s).data.getLast?.all fun c => !isJsSpace c) = true ∧
    (hasCrCr (s.data.filter fun c => !isZeroWidth c) = false →
      hasCrlf (sanitizePassword s).data = false) := by
  have hdata : (sanitizePassword s).data =
      jsTrim (replaceCrlf (s.data.filter fun c => !isZeroWidth c)) := rfl
  refine ⟨?_, ?_, ?_, ?_⟩
  · rw [hdata, List.all_eq_true]
    intro c hc
    have hc2 : c ∈ replaceCrlf (s.data.filter fun c => !isZeroWidth c) :=
      (jsTrim_infixOf _).sublist.subset hc
    rcases mem_replaceCrlf _ hc2 with rfl | hc3
    · decide
    · exact (List.mem_filter.mp hc3).2
  · rw [hdata]
    exact jsTrim_head _
  · rw [hdata]
    exact jsTrim_last _
  · intro h
    rw [hdata]
    exact hasCrlf_infix (jsTrim_infixOf _) (noCrlf_replaceCrlf _ h)

theorem C4_witness :
    hasCrlf (sanitizePassword "pass\r\nword").data = false :=
  (C4_sanitized_text "pass\r\nword").2.2.2 (by decide)

end SaraBack
